import Mathlib

/-!
Verification of the bimanual follower control layer
(`lerobot/common/robots/bimanual_follower/`): a shallow embedding of
`BimanualFollowerConfig.__post_init__`, `BimanualFollower.connect`,
`calibrate`, `get_observation`, `send_action` and `disconnect`, together
with theorems about the configuration checks, the lifecycle preconditions,
the key grammar of observation/action dictionaries, the calibration map
and the safety clamp.

Conventions of the embedding:
- Python dictionaries are association lists `List (String × α)` in
  insertion order; assignment `d[k] = v` is `dictSet` (update in place when
  the key exists, append otherwise).
- Python string operations used by the code (`startswith`, `endswith`,
  `removesuffix`, `replace`) are re-implemented over `String.data`
  (`List Char`) so that they evaluate inside the kernel.
- The two motor buses and the cameras are external collaborators; their
  behaviour is an explicit environment (present positions, recorded
  calibration ranges, success or failure of a release), and the bus and
  camera transactions a method performs are returned as an explicit trace.
- Exceptions become `Except` values of the error taxonomy `RErr`.
-/

/-! ## Python string primitives over character lists -/

/-- Python str.startswith: is the pattern a prefix of the string. -/
def strStartsWith (s pat : String) : Bool := pat.data.isPrefixOf s.data

/-- Python str.endswith: is the pattern a suffix of the string. -/
def strEndsWith (s pat : String) : Bool := pat.data.isSuffixOf s.data

/-- Drop the last n characters of a string. -/
def strDropRight (s : String) (n : Nat) : String :=
  ⟨s.data.take (s.data.length - n)⟩

/-- Python str.removesuffix: drop the suffix when present, else return the
string unchanged. -/
def removesuffix (s suf : String) : String :=
  if strEndsWith s suf then strDropRight s suf.length else s

/-- Worker for strReplace: replace every non-overlapping occurrence of a
nonempty pattern, scanning left to right, with fuel for structural
recursion (each step consumes at least one input character, so fuel equal
to the input length suffices). -/
def replaceCharsFuel (pat rep : List Char) : Nat → List Char → List Char
  | _, [] => []
  | 0, s => s
  | fuel + 1, c :: rest =>
    if pat ≠ [] ∧ pat.isPrefixOf (c :: rest) then
      rep ++ replaceCharsFuel pat rep fuel (rest.drop (pat.length - 1))
    else
      c :: replaceCharsFuel pat rep fuel rest

/-- Python str.replace: replace every non-overlapping occurrence of the
pattern, scanning left to right (for an empty pattern the code never calls
this; we return the string unchanged in that case). -/
def strReplace (s pat rep : String) : String :=
  ⟨replaceCharsFuel pat.data rep.data s.data.length s.data⟩

/-! ## Python dictionaries as association lists -/

/-- The keys of an association list, in insertion order. -/
def keys {α : Type} (d : List (String × α)) : List String := d.map Prod.fst

/-- Python d[k] as a total lookup: the value at the first occurrence of the
key, or none (a KeyError in Python). -/
def getKey? {α : Type} : List (String × α) → String → Option α
  | [], _ => none
  | (k, v) :: d, x => if k = x then some v else getKey? d x

/-- Python dictionary assignment d[k] = v: update the value in place when
the key is present, append a new entry otherwise. -/
def dictSet {α : Type} (d : List (String × α)) (k : String) (v : α) :
    List (String × α) :=
  if k ∈ keys d then d.map (fun p => if p.1 = k then (k, v) else p)
  else d ++ [(k, v)]

/-- Python d.update(es): assign every entry of es into d, in order. -/
def dictUpdate {α : Type} (d es : List (String × α)) : List (String × α) :=
  es.foldl (fun acc p => dictSet acc p.1 p.2) d

/-! ## Data model (from the source) -/

/-- The error taxonomy of the robot layer: DeviceAlreadyConnectedError,
DeviceNotConnectedError, ValueError at configuration time, a Python
KeyError carrying the missing key, and an opaque collaborator failure. -/
inductive RErr : Type
  | alreadyConnected
  | notConnected
  | invalidConfiguration
  | keyError (k : String)
  | busFailure
deriving DecidableEq

/-- Which arm of the bimanual follower. -/
inductive Side : Type
  | left
  | right
deriving DecidableEq

/-- The configured maximum_relative_target: a scalar bound for every motor
or a list of per-motor bounds. -/
inductive MRT : Type
  | scalar (b : Int)
  | list (bs : List Int)
deriving DecidableEq

/-- MotorCalibration (lerobot.common.motors): id, drive_mode,
homing_offset, range_min, range_max. -/
structure MotorCalibration : Type where
  id : Nat
  drive_mode : Nat
  homing_offset : Int
  range_min : Int
  range_max : Int
deriving DecidableEq

/-- The six joint names of one SO-100 arm, in the order of the motor map
in BimanualFollower.__init__. -/
def armJoints : List String :=
  ["shoulder_pan", "shoulder_lift", "elbow_flex", "wrist_flex",
   "wrist_roll", "gripper"]

/-- The left bus motor map: joint name and motor id (ids 1 to 6). -/
def leftMotors : List (String × Nat) :=
  [("shoulder_pan", 1), ("shoulder_lift", 2), ("elbow_flex", 3),
   ("wrist_flex", 4), ("wrist_roll", 5), ("gripper", 6)]

/-- The right bus motor map: joint name and motor id (ids 7 to 12). -/
def rightMotors : List (String × Nat) :=
  [("shoulder_pan", 7), ("shoulder_lift", 8), ("elbow_flex", 9),
   ("wrist_flex", 10), ("wrist_roll", 11), ("gripper", 12)]

/-- unknown_range_motors in calibrate(): every motor except the full-turn
joint wrist_roll; this is the list handed to record_ranges_of_motion. -/
def sweptMotors : List String :=
  armJoints.filter (fun m => m ≠ "wrist_roll")

/-- BimanualFollowerConfig after validation. -/
structure BimanualFollowerConfig : Type where
  left_port : String
  right_port : String
  disable_torque_on_disconnect : Bool
  max_relative_target : Option MRT
  use_degrees : Bool
deriving DecidableEq

/-- BimanualFollowerConfig.__post_init__: constructing the configuration
raises ValueError (InvalidConfiguration) when the two ports coincide, and
when a list-valued max_relative_target does not have exactly 12 entries;
otherwise the dataclass is constructed. No hardware I/O is involved: this
is a pure check on the fields. -/
def mkBimanualFollowerConfig (lp rp : String) (dtd : Bool)
    (mrt : Option MRT) (ud : Bool) : Except RErr BimanualFollowerConfig :=
  if lp = rp then .error .invalidConfiguration
  else
    match mrt with
    | some (.list bs) =>
      if bs.length ≠ 12 then .error .invalidConfiguration
      else .ok ⟨lp, rp, dtd, mrt, ud⟩
    | _ => .ok ⟨lp, rp, dtd, mrt, ud⟩

/-! ## Safety clamp (external helper, modelled from the spec) -/

/-- Modelled from the spec: the per-motor clamp inside
ensure_safe_goal_position (lerobot/common/robots/utils.py, not part of the
source tree; only its call sites in send_action are). Section 4.4:
computes delta = goal - present; if the magnitude of delta exceeds the
bound, clips the goal to present + sign(delta) * bound; otherwise passes
the goal through unchanged. -/
def clampGoal (b goal present : Int) : Int :=
  let delta := goal - present
  if b < |delta| then present + delta.sign * b else goal

/-- Modelled from the spec: ensure_safe_goal_position
(lerobot/common/robots/utils.py, not part of the source tree). Section
4.4: given the motor-keyed pairs (goal, present) and the configured bound
— a single scalar applied to every motor, or a list with one entry per
motor in a fixed, known motor order (here: the positional order of the
pair map, which the spec leaves to the implementation) — clamp every goal
as in clampGoal. -/
def ensure_safe_goal_position (pairs : List (String × Int × Int))
    (mrt : MRT) : List (String × Int) :=
  match mrt with
  | .scalar b => pairs.map (fun p => (p.1, clampGoal b p.2.1 p.2.2))
  | .list bs =>
    List.zipWith (fun p b => (p.1, clampGoal b p.2.1 p.2.2)) pairs bs

/-! ## Dual-arm controller state -/

/-- The observable state of a BimanualFollower and of its collaborators:
the connected flags of the two buses, the cameras (name, connected flag)
in construction order, the calibrated flags of the two buses, and the
present position each bus would report for a motor name. -/
structure DualArmState : Type where
  leftConnected : Bool
  rightConnected : Bool
  cameras : List (String × Bool)
  leftCalibrated : Bool
  rightCalibrated : Bool
  leftPresent : String → Int
  rightPresent : String → Int

/-- BimanualFollower.is_connected: both buses and all cameras report
connected. -/
def isConnected (st : DualArmState) : Bool :=
  st.leftConnected && st.rightConnected && st.cameras.all (fun c => c.2)

/-- BimanualFollower.is_calibrated: both buses report calibrated. -/
def isCalibrated (st : DualArmState) : Bool :=
  st.leftCalibrated && st.rightCalibrated

/-! ## connect -/

/-- One externally visible step of BimanualFollower.connect. -/
inductive ConnectEvent : Type
  | busConnect (s : Side)
  | runCalibration
  | camConnect (n : String)
  | configureArms
deriving DecidableEq

/-- BimanualFollower.connect: raise DeviceAlreadyConnectedError when
is_connected (performing nothing), else connect the left bus, the right
bus, run calibration when not calibrated and the flag asks for it, connect
every camera, configure both arms. The trace lists the collaborator calls
in program order. -/
def connect (st : DualArmState) (cal : Bool) :
    List ConnectEvent × Except RErr Unit :=
  if isConnected st then ([], .error .alreadyConnected)
  else
    ([ConnectEvent.busConnect .left, ConnectEvent.busConnect .right]
      ++ (if isCalibrated st = false ∧ cal = true then [ConnectEvent.runCalibration]
          else [])
      ++ (keys st.cameras).map ConnectEvent.camConnect
      ++ [ConnectEvent.configureArms], .ok ())

/-! ## send_action -/

/-- One bus transaction issued by send_action. -/
inductive BusOp : Type
  | syncRead (register : String)
  | syncWrite (register : String) (vals : List (String × Int))
deriving DecidableEq

/-- The result of send_action: the returned dictionary of actions actually
sent, and the transactions issued on each bus, in program order. -/
structure SendOutcome : Type where
  sent : List (String × Int)
  leftOps : List BusOp
  rightOps : List BusOp
deriving DecidableEq

/-- The motor name a side-matching action key is filed under:
key.replace(side_prefix, "").removesuffix(".pos"). -/
def stripKey (pre k : String) : String :=
  removesuffix (strReplace k pre "") ".pos"

/-- The key-splitting loop of send_action: for each entry, when the key
ends in ".pos" and starts with "left_" file it in the left target map,
else when it starts with "right_" in the right target map, else skip it. -/
def splitGo (l r : List (String × Int)) :
    List (String × Int) → List (String × Int) × List (String × Int)
  | [] => (l, r)
  | (k, v) :: rest =>
    if strEndsWith k ".pos" then
      if strStartsWith k "left_" then
        splitGo (dictSet l (stripKey "left_" k) v) r rest
      else if strStartsWith k "right_" then
        splitGo l (dictSet r (stripKey "right_" k) v) rest
      else splitGo l r rest
    else splitGo l r rest

/-- The two per-arm target maps send_action builds from the action
dictionary. -/
def splitActions (action : List (String × Int)) :
    List (String × Int) × List (String × Int) :=
  splitGo [] [] action

/-- bus.sync_read("Present_Position"): one batched read returning the
value of every motor of the bus, keyed by motor name in motor-map order. -/
def syncReadPresent (joints : List String) (present : String → Int) :
    List (String × Int) :=
  joints.map (fun m => (m, present m))

/-- The pairing comprehension of send_action:
{key: (goal, present[key]) for key, goal in targets.items()} — a missing
key raises KeyError at the first offending entry. -/
def pairWithPresent :
    List (String × Int) → List (String × Int) →
    Except RErr (List (String × Int × Int))
  | [], _ => .ok []
  | (k, g) :: rest, present =>
    match getKey? present k with
    | none => .error (RErr.keyError k)
    | some p =>
      match pairWithPresent rest present with
      | .error e => .error e
      | .ok tl => .ok ((k, (g, p)) :: tl)

/-- The per-arm safety block of send_action when a bound is configured:
when the target map is nonempty, sync_read the present positions, pair
them with the goals (KeyError on an unknown motor name) and clamp;
an empty target map is left untouched and its bus is not read. -/
def clampStep (mrt : MRT) (present : String → Int)
    (goals : List (String × Int)) : Except RErr (List (String × Int)) :=
  if goals.isEmpty then .ok goals
  else
    match pairWithPresent goals (syncReadPresent armJoints present) with
    | .error e => .error e
    | .ok pairs => .ok (ensure_safe_goal_position pairs mrt)

/-- The read transaction a safety block issues: one sync_read exactly when
the target map is nonempty. -/
def readOps (goals : List (String × Int)) : List BusOp :=
  if goals.isEmpty then [] else [BusOp.syncRead "Present_Position"]

/-- The write transaction send_action issues per arm: one batched
sync_write of the goal positions exactly when the target map is
nonempty. -/
def writeOps (goals : List (String × Int)) : List BusOp :=
  if goals.isEmpty then [] else [BusOp.syncWrite "Goal_Position" goals]

/-- Re-prefix a per-arm target map to wire keys: motor m becomes
(side_prefix)m.pos. -/
def prefixKeys (pre : String) (d : List (String × Int)) :
    List (String × Int) :=
  d.map (fun p => (pre ++ p.1 ++ ".pos", p.2))

/-- sent_actions: an empty dictionary updated with the re-prefixed left
targets, then with the re-prefixed right targets. -/
def mkSent (la ra : List (String × Int)) : List (String × Int) :=
  dictUpdate (dictUpdate [] (prefixKeys "left_" la)) (prefixKeys "right_" ra)

/-- BimanualFollower.send_action: raise DeviceNotConnectedError unless
is_connected; split the action dictionary into per-arm target maps; when a
max_relative_target is configured run the left then the right safety
block (propagating its KeyError); sync_write each nonempty target map and
return the union of what was written, re-prefixed. -/
def send_action (cfg : BimanualFollowerConfig) (st : DualArmState)
    (action : List (String × Int)) : Except RErr SendOutcome :=
  if isConnected st = false then .error .notConnected
  else
    let la0 := (splitActions action).1
    let ra0 := (splitActions action).2
    match cfg.max_relative_target with
    | none => .ok ⟨mkSent la0 ra0, writeOps la0, writeOps ra0⟩
    | some mrt =>
      match clampStep mrt st.leftPresent la0 with
      | .error e => .error e
      | .ok la =>
        match clampStep mrt st.rightPresent ra0 with
        | .error e => .error e
        | .ok ra =>
          .ok ⟨mkSent la ra, readOps la0 ++ writeOps la,
               readOps ra0 ++ writeOps ra⟩

/-! ## get_observation -/

/-- A value of the observation dictionary: a joint position or a camera
image (images are opaque here, tagged by a sample index). -/
inductive ObsVal : Type
  | pos (v : Int)
  | img (v : Nat)
deriving DecidableEq

/-- BimanualFollower.get_observation: raise DeviceNotConnectedError unless
is_connected; sync_read the left bus and add left_(m).pos entries,
sync_read the right bus and add right_(m).pos entries, then add one entry
per camera keyed by camera name, in construction order. -/
def get_observation (st : DualArmState) (camImage : String → Nat) :
    Except RErr (List (String × ObsVal)) :=
  if isConnected st = false then .error .notConnected
  else
    let leftObs := (syncReadPresent armJoints st.leftPresent).map
      (fun p => ("left_" ++ p.1 ++ ".pos", ObsVal.pos p.2))
    let rightObs := (syncReadPresent armJoints st.rightPresent).map
      (fun p => ("right_" ++ p.1 ++ ".pos", ObsVal.pos p.2))
    let base := dictUpdate (dictUpdate [] leftObs) rightObs
    .ok ((keys st.cameras).foldl
      (fun d c => dictSet d c (ObsVal.img (camImage c))) base)

/-! ## disconnect -/

/-- A release performed by disconnect: a bus release carrying the
disable-torque flag it was passed, or a camera release. -/
inductive Release : Type
  | bus (s : Side) (disableTorque : Bool)
  | cam (n : String)
deriving DecidableEq

/-- Whether each collaborator release succeeds or raises. -/
structure DisconnectEnv : Type where
  leftOk : Bool
  rightOk : Bool
  camOk : String → Bool

/-- The camera loop of disconnect: release each camera in order; a raising
release aborts the loop (the remaining cameras are not released). -/
def camDisconnects (camOk : String → Bool) :
    List String → List Release × Except RErr Unit
  | [] => ([], .ok ())
  | c :: rest =>
    if camOk c then
      ((Release.cam c) :: (camDisconnects camOk rest).1,
       (camDisconnects camOk rest).2)
    else ([Release.cam c], .error .busFailure)

/-- BimanualFollower.disconnect: raise DeviceNotConnectedError unless
is_connected (releasing nothing); otherwise release the left bus, then the
right bus (each passed disable_torque_on_disconnect), then every camera,
sequentially — a raising release propagates at once and the remaining
resources are not released. The trace lists the releases attempted, in
program order. -/
def disconnect (cfg : BimanualFollowerConfig) (st : DualArmState)
    (env : DisconnectEnv) : List Release × Except RErr Unit :=
  if isConnected st = false then ([], .error .notConnected)
  else if env.leftOk = false then
    ([Release.bus .left cfg.disable_torque_on_disconnect],
     .error .busFailure)
  else if env.rightOk = false then
    ([Release.bus .left cfg.disable_torque_on_disconnect,
      Release.bus .right cfg.disable_torque_on_disconnect],
     .error .busFailure)
  else
    (Release.bus .left cfg.disable_torque_on_disconnect ::
      Release.bus .right cfg.disable_torque_on_disconnect ::
      (camDisconnects env.camOk (keys st.cameras)).1,
     (camDisconnects env.camOk (keys st.cameras)).2)

/-! ## calibrate -/

/-- What the two buses report during a calibration run: the homing offset
set_half_turn_homings returns for each motor, and the running minimum and
maximum record_ranges_of_motion returns for each swept motor. -/
structure CalibEnv : Type where
  leftHoming : String → Int
  leftMins : String → Int
  leftMaxs : String → Int
  rightHoming : String → Int
  rightMins : String → Int
  rightMaxs : String → Int

/-- Dictionary assignment on a total map: range_mins[k] = v. -/
def setFn (f : String → Int) (k : String) (v : Int) : String → Int :=
  fun x => if x = k then v else f x

/-- The entries calibrate builds for one arm: for each motor of the bus,
in motor-map order, a MotorCalibration with the arm prefix on the key,
drive_mode 0, the homing offset from phase 1 and the recorded range from
phase 2 — after range_mins[wrist_roll] = 0 and
range_maxes[wrist_roll] = 4095 overrode the full-turn joint. -/
def armCalibEntries (pre : String) (motors : List (String × Nat))
    (homing mins maxs : String → Int) :
    List (String × MotorCalibration) :=
  motors.map (fun p =>
    (pre ++ p.1,
     { id := p.2, drive_mode := 0, homing_offset := homing p.1,
       range_min := (setFn mins "wrist_roll" 0) p.1,
       range_max := (setFn maxs "wrist_roll" 4095) p.1 }))

/-- BimanualFollower.calibrate, its calibration-map construction: the map
is reset to empty (self.calibration = {}, discarding the prior map) and
filled with one entry per left motor then one per right motor. The
interactive homing and sweep phases are the environment; the resulting map
is also what is written back to the buses and persisted. -/
def calibrate (prior : List (String × MotorCalibration)) (env : CalibEnv) :
    List (String × MotorCalibration) :=
  dictUpdate []
    (armCalibEntries "left_" leftMotors env.leftHoming env.leftMins env.leftMaxs
      ++ armCalibEntries "right_" rightMotors env.rightHoming env.rightMins
          env.rightMaxs)

/-! ## Derived key lists and concrete fixtures -/

/-- The keys of the combined calibration map, in construction order. -/
def calibKeys : List String :=
  ["left_shoulder_pan", "left_shoulder_lift", "left_elbow_flex",
   "left_wrist_flex", "left_wrist_roll", "left_gripper",
   "right_shoulder_pan", "right_shoulder_lift", "right_elbow_flex",
   "right_wrist_flex", "right_wrist_roll", "right_gripper"]

/-- The motor keys of the observation dictionary, in construction order:
left motors then right motors, each as (side)_(m).pos. -/
def obsMotorKeys : List String :=
  armJoints.map (fun m => "left_" ++ m ++ ".pos")
    ++ armJoints.map (fun m => "right_" ++ m ++ ".pos")

/-- Fixture: a configuration with no safety bound. -/
def exCfgNoBound : BimanualFollowerConfig :=
  ⟨"/dev/ttyUSB0", "/dev/ttyUSB1", true, none, false⟩

/-- Fixture: a configuration with the scalar bound 10. -/
def exCfgBound10 : BimanualFollowerConfig :=
  ⟨"/dev/ttyUSB0", "/dev/ttyUSB1", true, some (MRT.scalar 10), false⟩

/-- Fixture: a fully connected, calibrated controller with one camera. -/
def exStReady : DualArmState :=
  { leftConnected := true, rightConnected := true,
    cameras := [("wrist_cam", true)],
    leftCalibrated := true, rightCalibrated := true,
    leftPresent := fun _ => 0, rightPresent := fun _ => 0 }

/-- Fixture: only the left bus reports connected. -/
def exStLeftOnly : DualArmState :=
  { leftConnected := true, rightConnected := false, cameras := [],
    leftCalibrated := true, rightCalibrated := true,
    leftPresent := fun _ => 0, rightPresent := fun _ => 0 }

/-- Fixture: nothing connected. -/
def exStOff : DualArmState :=
  { leftConnected := false, rightConnected := false, cameras := [],
    leftCalibrated := false, rightCalibrated := false,
    leftPresent := fun _ => 0, rightPresent := fun _ => 0 }

/-- Fixture: the left bus release raises, everything else succeeds. -/
def exEnvLeftFail : DisconnectEnv :=
  { leftOk := false, rightOk := true, camOk := fun _ => true }

/-- Fixture: every release succeeds. -/
def exEnvAllOk : DisconnectEnv :=
  { leftOk := true, rightOk := true, camOk := fun _ => true }

/-- Fixture: a calibration run whose sweep never moved any joint, so every
recorded range collapses to the homing point (min = max = 100). -/
def exCalibZeroWidth : CalibEnv :=
  { leftHoming := fun _ => 7, leftMins := fun _ => 100,
    leftMaxs := fun _ => 100,
    rightHoming := fun _ => 7, rightMins := fun _ => 100,
    rightMaxs := fun _ => 100 }

/-! ## Dictionary lemmas -/

theorem keys_append {α : Type} (d e : List (String × α)) :
    keys (d ++ e) = keys d ++ keys e := by
  simp [keys]

theorem keys_map_fst {α β : Type} (d : List (String × α))
    (g : String → String) (F : String × α → β) :
    keys (d.map (fun p => (g p.1, F p))) = (keys d).map g := by
  simp only [keys, List.map_map]
  exact List.map_congr_left (fun p _ => rfl)

theorem keys_map_pairFn {α : Type} (names : List String) (F : String → α) :
    keys (names.map (fun c => (c, F c))) = names := by
  simp only [keys, List.map_map]
  have h : (Prod.fst ∘ fun c : String => ((c, F c) : String × α)) = id := rfl
  rw [h, List.map_id]

theorem keys_cons {α : Type} (k : String) (v : α)
    (d : List (String × α)) : keys ((k, v) :: d) = k :: keys d := rfl

theorem keys_dictSet {α : Type} (d : List (String × α)) (k : String)
    (v : α) :
    keys (dictSet d k v) = if k ∈ keys d then keys d else keys d ++ [k] := by
  by_cases h : k ∈ keys d
  · rw [dictSet, if_pos h, if_pos h]
    simp only [keys, List.map_map]
    refine List.map_congr_left (fun p _ => ?_)
    by_cases hp : p.1 = k <;> simp [Function.comp, hp]
  · rw [dictSet, if_neg h, if_neg h, keys_append]
    rfl

theorem mem_keys_dictSet {α : Type} (d : List (String × α)) (k x : String)
    (v : α) (h : x ∈ keys d) : x ∈ keys (dictSet d k v) := by
  rw [keys_dictSet]
  split <;> simp [h]

theorem self_mem_keys_dictSet {α : Type} (d : List (String × α))
    (k : String) (v : α) : k ∈ keys (dictSet d k v) := by
  rw [keys_dictSet]
  split
  · assumption
  · simp

theorem nodup_keys_dictSet {α : Type} (d : List (String × α)) (k : String)
    (v : α) (h : (keys d).Nodup) : (keys (dictSet d k v)).Nodup := by
  rw [keys_dictSet]
  by_cases hk : k ∈ keys d
  · rw [if_pos hk]
    exact h
  · rw [if_neg hk]
    simp [List.nodup_append, h, hk]

theorem dictSet_fresh {α : Type} (d : List (String × α)) (k : String)
    (v : α) (h : k ∉ keys d) : dictSet d k v = d ++ [(k, v)] := by
  simp [dictSet, h]

theorem dictUpdate_fresh {α : Type} :
    ∀ (es d : List (String × α)), (∀ x ∈ keys es, x ∉ keys d) →
      (keys es).Nodup → dictUpdate d es = d ++ es
  | [], d, _, _ => by simp [dictUpdate]
  | (k, v) :: tl, d, hdisj, hnd => by
    have hk : k ∉ keys d := hdisj k (by rw [keys_cons]; exact List.mem_cons_self k _)
    have hstep : dictUpdate d ((k, v) :: tl) = dictUpdate (d ++ [(k, v)]) tl := by
      simp [dictUpdate, dictSet_fresh d k v hk]
    rw [hstep]
    have hnd2 := hnd
    rw [keys_cons] at hnd2
    obtain ⟨hknotl, hnd'⟩ := List.nodup_cons.mp hnd2
    have hdisj' : ∀ x ∈ keys tl, x ∉ keys (d ++ [(k, v)]) := by
      intro x hx
      rw [keys_append]
      simp only [List.mem_append, not_or]
      constructor
      · exact hdisj x (by rw [keys_cons]; exact List.mem_cons_of_mem k hx)
      · intro hxk
        have hxk2 : x = k := by simpa [keys] using hxk
        subst hxk2
        exact hknotl hx
    rw [dictUpdate_fresh tl (d ++ [(k, v)]) hdisj' hnd']
    simp

theorem getKey?_eq_of_mem {α : Type} :
    ∀ (d : List (String × α)) (k : String) (v : α),
      (k, v) ∈ d → (keys d).Nodup → getKey? d k = some v
  | [], _, _, hmem, _ => by cases hmem
  | (k', v') :: tl, k, v, hmem, hnd => by
    have hnd2 := hnd
    rw [keys_cons] at hnd2
    obtain ⟨hknotl, hnd'⟩ := List.nodup_cons.mp hnd2
    rcases List.mem_cons.mp hmem with heq | htl
    · have h1 : k' = k := (Prod.ext_iff.mp heq.symm).1
      have h2 : v' = v := (Prod.ext_iff.mp heq.symm).2
      subst h1
      subst h2
      simp [getKey?]
    · have hne : k' ≠ k := by
        intro hkk
        subst hkk
        exact hknotl (List.mem_map_of_mem Prod.fst htl)
      simp only [getKey?, if_neg hne]
      exact getKey?_eq_of_mem tl k v htl hnd'

/-! ## String key lemmas -/

theorem string_eq_of_data_eq {a b : String} (h : a.data = b.data) :
    a = b := by
  cases a
  cases b
  simp_all

theorem wireKey_inj (pre : String) {a b : String}
    (h : pre ++ a ++ ".pos" = pre ++ b ++ ".pos") : a = b := by
  have h2 := congrArg String.data h
  rw [String.data_append, String.data_append, String.data_append,
    String.data_append] at h2
  have h3 := List.append_cancel_right h2
  have h4 := List.append_cancel_left h3
  exact string_eq_of_data_eq h4

theorem left_right_key_ne (a b : String) :
    ("left_" ++ a ++ ".pos") ≠ ("right_" ++ b ++ ".pos") := by
  intro h
  have h2 := congrArg String.data h
  rw [String.data_append, String.data_append, String.data_append,
    String.data_append] at h2
  rw [show "left_".data = ['l', 'e', 'f', 't', '_'] from rfl,
    show "right_".data = ['r', 'i', 'g', 'h', 't', '_'] from rfl] at h2
  simp only [List.cons_append, List.cons.injEq] at h2
  exact absurd h2.1 (by decide)

theorem keys_prefixKeys (pre : String) (d : List (String × Int)) :
    keys (prefixKeys pre d) = (keys d).map (fun m => pre ++ m ++ ".pos") :=
  keys_map_fst d (fun m => pre ++ m ++ ".pos") (fun p => p.2)

theorem nodup_keys_prefixKeys (pre : String) (d : List (String × Int))
    (h : (keys d).Nodup) : (keys (prefixKeys pre d)).Nodup := by
  rw [keys_prefixKeys]
  exact h.map (fun a b hab => wireKey_inj pre hab)

theorem mkSent_eq (la ra : List (String × Int))
    (hla : (keys la).Nodup) (hra : (keys ra).Nodup) :
    mkSent la ra = prefixKeys "left_" la ++ prefixKeys "right_" ra := by
  unfold mkSent
  have h1 : dictUpdate ([] : List (String × Int)) (prefixKeys "left_" la)
      = [] ++ prefixKeys "left_" la :=
    dictUpdate_fresh _ _ (by intro x _ hx; cases hx)
      (nodup_keys_prefixKeys _ _ hla)
  rw [h1, List.nil_append]
  refine dictUpdate_fresh _ _ ?_ (nodup_keys_prefixKeys _ _ hra)
  intro x hx hmem
  rw [keys_prefixKeys] at hx hmem
  obtain ⟨b, _, hb⟩ := List.mem_map.mp hx
  obtain ⟨a, _, ha⟩ := List.mem_map.mp hmem
  exact left_right_key_ne a b (ha.trans hb.symm)

/-! ## Key-splitting lemmas -/

theorem splitGo_nodup :
    ∀ (action l r : List (String × Int)), (keys l).Nodup →
      (keys r).Nodup →
      (keys (splitGo l r action).1).Nodup ∧ (keys (splitGo l r action).2).Nodup
  | [], l, r, hl, hr => ⟨hl, hr⟩
  | (k, v) :: rest, l, r, hl, hr => by
    simp only [splitGo]
    split_ifs with h1 h2 h3
    · exact splitGo_nodup rest _ r (nodup_keys_dictSet _ _ _ hl) hr
    · exact splitGo_nodup rest l _ hl (nodup_keys_dictSet _ _ _ hr)
    · exact splitGo_nodup rest l r hl hr
    · exact splitGo_nodup rest l r hl hr

theorem splitGo_mem_left :
    ∀ (action l r : List (String × Int)) (x : String), x ∈ keys l →
      x ∈ keys (splitGo l r action).1
  | [], _, _, _, hx => hx
  | (k, v) :: rest, l, r, x, hx => by
    simp only [splitGo]
    split_ifs with h1 h2 h3
    · exact splitGo_mem_left rest _ r x (mem_keys_dictSet _ _ _ _ hx)
    · exact splitGo_mem_left rest l _ x hx
    · exact splitGo_mem_left rest l r x hx
    · exact splitGo_mem_left rest l r x hx

theorem splitGo_left_key :
    ∀ (action l r : List (String × Int)) (k : String) (v : Int),
      (k, v) ∈ action → strEndsWith k ".pos" = true →
      strStartsWith k "left_" = true →
      stripKey "left_" k ∈ keys (splitGo l r action).1
  | [], _, _, _, _, hmem, _, _ => by cases hmem
  | (k', v') :: rest, l, r, k, v, hmem, hend, hstart => by
    rcases List.mem_cons.mp hmem with heq | htl
    · have h1 : k' = k := (Prod.ext_iff.mp heq.symm).1
      subst h1
      simp only [splitGo, hend, hstart, if_true]
      exact splitGo_mem_left rest _ r _ (self_mem_keys_dictSet _ _ _)
    · simp only [splitGo]
      split_ifs with h1 h2 h3
      · exact splitGo_left_key rest _ r k v htl hend hstart
      · exact splitGo_left_key rest l _ k v htl hend hstart
      · exact splitGo_left_key rest l r k v htl hend hstart
      · exact splitGo_left_key rest l r k v htl hend hstart

theorem splitGo_ignore (k : String) (v : Int) (a2 : List (String × Int))
    (hk : ¬(strEndsWith k ".pos" = true ∧ (strStartsWith k "left_" = true
      ∨ strStartsWith k "right_" = true))) :
    ∀ (a1 l r : List (String × Int)),
      splitGo l r (a1 ++ (k, v) :: a2) = splitGo l r (a1 ++ a2)
  | [], l, r => by
    simp only [List.nil_append, splitGo]
    split_ifs with h1 h2 h3
    · exact absurd ⟨h1, Or.inl h2⟩ hk
    · exact absurd ⟨h1, Or.inr h3⟩ hk
    · rfl
    · rfl
  | (k', v') :: tl, l, r => by
    simp only [List.cons_append, splitGo]
    split_ifs with h1 h2 h3
    · exact splitGo_ignore k v a2 hk tl _ r
    · exact splitGo_ignore k v a2 hk tl l _
    · exact splitGo_ignore k v a2 hk tl l r
    · exact splitGo_ignore k v a2 hk tl l r

/-! ## Pairing lemmas -/

theorem getKey?_syncRead_none :
    ∀ (joints : List String) (f : String → Int) (x : String),
      getKey? (syncReadPresent joints f) x = none ↔ x ∉ joints
  | [], f, x => by simp [syncReadPresent, getKey?]
  | j :: tl, f, x => by
    simp only [syncReadPresent, List.map_cons, getKey?]
    by_cases hj : j = x
    · subst hj
      simp
    · rw [if_neg hj]
      have htl := getKey?_syncRead_none tl f x
      rw [show (syncReadPresent tl f = tl.map (fun m => (m, f m)))
        from rfl] at htl
      rw [htl]
      simp only [List.mem_cons, not_or]
      constructor
      · intro h
        exact ⟨fun hxj => hj hxj.symm, h⟩
      · intro h
        exact h.2

theorem pairWithPresent_fail :
    ∀ (goals present : List (String × Int)) (x : String),
      x ∈ keys goals → getKey? present x = none →
      ∃ n, pairWithPresent goals present = .error (RErr.keyError n)
        ∧ getKey? present n = none
  | [], _, x, hmem, _ => by simp [keys] at hmem
  | (k, g) :: tl, present, x, hmem, hnone => by
    by_cases hk : getKey? present k = none
    · exact ⟨k, by simp [pairWithPresent, hk], hk⟩
    · obtain ⟨p, hp⟩ := Option.ne_none_iff_exists'.mp hk
      have hx : x ∈ keys tl := by
        rw [keys_cons] at hmem
        rcases List.mem_cons.mp hmem with heq | htl
        · subst heq
          exact absurd hnone hk
        · exact htl
      obtain ⟨n, hn, hn2⟩ := pairWithPresent_fail tl present x hx hnone
      refine ⟨n, ?_, hn2⟩
      simp [pairWithPresent, hp, hn]

/-! ## Camera release lemma -/

theorem camDisconnects_ok (camOk : String → Bool) :
    ∀ (names : List String), (∀ c ∈ names, camOk c = true) →
      camDisconnects camOk names = (names.map Release.cam, .ok ())
  | [], _ => rfl
  | c :: tl, h => by
    have hc : camOk c = true := h c (List.mem_cons_self c tl)
    have htl := camDisconnects_ok camOk tl
      (fun x hx => h x (List.mem_cons_of_mem c hx))
    simp [camDisconnects, hc, htl]

/-! ## Calibration map lemmas -/

theorem setFn_self (f : String → Int) (k : String) (v : Int) :
    setFn f k v k = v := by
  simp [setFn]

theorem setFn_other (f : String → Int) (k : String) (v : Int) (x : String)
    (h : x ≠ k) : setFn f k v x = f x := by
  simp [setFn, h]

theorem keys_armCalibEntries (pre : String) (motors : List (String × Nat))
    (homing mins maxs : String → Int) :
    keys (armCalibEntries pre motors homing mins maxs)
      = (keys motors).map (fun m => pre ++ m) := by
  unfold armCalibEntries
  exact keys_map_fst motors (fun m => pre ++ m) _

theorem calibrate_eq_entries (prior : List (String × MotorCalibration))
    (env : CalibEnv) :
    calibrate prior env
      = armCalibEntries "left_" leftMotors env.leftHoming env.leftMins
          env.leftMaxs
        ++ armCalibEntries "right_" rightMotors env.rightHoming env.rightMins
            env.rightMaxs := by
  unfold calibrate
  have hkeys : keys (armCalibEntries "left_" leftMotors env.leftHoming
      env.leftMins env.leftMaxs
      ++ armCalibEntries "right_" rightMotors env.rightHoming env.rightMins
          env.rightMaxs)
      = (keys leftMotors).map (fun m => "left_" ++ m)
        ++ (keys rightMotors).map (fun m => "right_" ++ m) := by
    rw [keys_append, keys_armCalibEntries, keys_armCalibEntries]
  have hnd : (keys (armCalibEntries "left_" leftMotors env.leftHoming
      env.leftMins env.leftMaxs
      ++ armCalibEntries "right_" rightMotors env.rightHoming env.rightMins
          env.rightMaxs)).Nodup := by
    rw [hkeys]
    decide
  have h := dictUpdate_fresh
    (armCalibEntries "left_" leftMotors env.leftHoming env.leftMins
        env.leftMaxs
      ++ armCalibEntries "right_" rightMotors env.rightHoming env.rightMins
          env.rightMaxs)
    [] (by intro x _ hx; cases hx) hnd
  rw [h, List.nil_append]

theorem calib_keys (prior : List (String × MotorCalibration))
    (env : CalibEnv) : keys (calibrate prior env) = calibKeys := by
  rw [calibrate_eq_entries, keys_append, keys_armCalibEntries,
    keys_armCalibEntries]
  decide

/-! ## Claim theorems -/

/-- C1: for every configured maximum-relative-target bound b (positive, as
the configuration documents) and every per-motor pair (goal, present)
passed through the safety clamp in send_action, the clamped output g
satisfies |g - present| ≤ b; whenever goal ≠ present the clamped motion
keeps the sign of the commanded motion; when |goal - present| ≤ b the goal
passes through unchanged; and the scalar-bound clamp applies exactly this
per-motor clamp to every pair. -/
theorem safety_clamp_spec (b g p : Int) (hb : 0 < b) :
    |clampGoal b g p - p| ≤ b
    ∧ (g ≠ p → (clampGoal b g p - p).sign = (g - p).sign)
    ∧ (|g - p| ≤ b → clampGoal b g p = g)
    ∧ ∀ pairs : List (String × Int × Int),
        ensure_safe_goal_position pairs (MRT.scalar b)
          = pairs.map (fun q => (q.1, clampGoal b q.2.1 q.2.2)) := by
  refine ⟨?_, ?_, ?_, fun pairs => rfl⟩
  · by_cases hlt : b < |g - p|
    · rcases lt_trichotomy (g - p) 0 with hd | hd | hd
      · have hs : (g - p).sign = -1 := Int.sign_eq_neg_one_iff_neg.mpr hd
        have hcl : clampGoal b g p = p + (-1) * b := by
          simp only [clampGoal]
          rw [if_pos hlt, hs]
        rw [hcl, show p + (-1) * b - p = -b from by ring, abs_neg,
          abs_of_pos hb]
      · exfalso
        rw [hd] at hlt
        simp at hlt
        omega
      · have hs : (g - p).sign = 1 := Int.sign_eq_one_iff_pos.mpr hd
        have hcl : clampGoal b g p = p + 1 * b := by
          simp only [clampGoal]
          rw [if_pos hlt, hs]
        rw [hcl, show p + 1 * b - p = b from by ring, abs_of_pos hb]
    · have hcl : clampGoal b g p = g := by
        simp only [clampGoal]
        rw [if_neg hlt]
      rw [hcl]
      exact le_of_not_lt hlt
  · intro hne
    by_cases hlt : b < |g - p|
    · rcases lt_trichotomy (g - p) 0 with hd | hd | hd
      · have hs : (g - p).sign = -1 := Int.sign_eq_neg_one_iff_neg.mpr hd
        have hcl : clampGoal b g p = p + (-1) * b := by
          simp only [clampGoal]
          rw [if_pos hlt, hs]
        rw [hcl, hs, show p + (-1) * b - p = -b from by ring]
        exact Int.sign_eq_neg_one_iff_neg.mpr (by omega)
      · exact absurd (by omega : g = p) hne
      · have hs : (g - p).sign = 1 := Int.sign_eq_one_iff_pos.mpr hd
        have hcl : clampGoal b g p = p + 1 * b := by
          simp only [clampGoal]
          rw [if_pos hlt, hs]
        rw [hcl, hs, show p + 1 * b - p = b from by ring]
        exact Int.sign_eq_one_iff_pos.mpr hb
    · have hcl : clampGoal b g p = g := by
        simp only [clampGoal]
        rw [if_neg hlt]
      rw [hcl]
  · intro hle
    simp only [clampGoal]
    rw [if_neg (not_lt.mpr hle)]

/-- Witness for C1 at the scenario of the spec: bound 10, goal 50,
present 0 clamps to 10; bound 10, goal 5, present 0 passes through. -/
theorem safety_clamp_spec_witness :
    |clampGoal 10 50 0 - 0| ≤ 10
    ∧ (clampGoal 10 50 0 - 0).sign = ((50 : Int) - 0).sign
    ∧ clampGoal 10 5 0 = 5
    ∧ clampGoal 10 50 0 = 10 :=
  ⟨(safety_clamp_spec 10 50 0 (by decide)).1,
   (safety_clamp_spec 10 50 0 (by decide)).2.1 (by decide),
   (safety_clamp_spec 10 5 0 (by decide)).2.2.1 (by decide),
   by decide⟩

/-- C7: constructing a dual-arm configuration fails with
InvalidConfiguration (a ValueError in the source) when the two ports
coincide, or when a list-valued maximum-relative-target bound does not
have exactly 12 entries; any other configuration constructs without
error. The check is a pure function of the fields: no hardware I/O is
involved. -/
theorem config_validation (lp rp : String) (dtd : Bool) (mrt : Option MRT)
    (ud : Bool) :
    (lp = rp →
      mkBimanualFollowerConfig lp rp dtd mrt ud
        = .error .invalidConfiguration)
    ∧ (∀ bs, mrt = some (MRT.list bs) → bs.length ≠ 12 →
      mkBimanualFollowerConfig lp rp dtd mrt ud
        = .error .invalidConfiguration)
    ∧ (lp ≠ rp → (∀ bs, mrt = some (MRT.list bs) → bs.length = 12) →
      mkBimanualFollowerConfig lp rp dtd mrt ud
        = .ok ⟨lp, rp, dtd, mrt, ud⟩) := by
  refine ⟨?_, ?_, ?_⟩
  · intro h
    simp [mkBimanualFollowerConfig, h]
  · intro bs hbs hlen
    subst hbs
    by_cases h : lp = rp
    · simp [mkBimanualFollowerConfig, h]
    · simp [mkBimanualFollowerConfig, h, hlen]
  · intro hne hlist
    rcases mrt with _ | mv
    · simp [mkBimanualFollowerConfig, hne]
    · rcases mv with b | bs
      · simp [mkBimanualFollowerConfig, hne]
      · have hlen := hlist bs rfl
        simp [mkBimanualFollowerConfig, hne, hlen]

/-- Witness for C7: equal ports are rejected, an 11-entry bound list is
rejected, and a valid configuration constructs. -/
theorem config_validation_witness :
    mkBimanualFollowerConfig "/dev/ttyUSB0" "/dev/ttyUSB0" true none false
        = .error .invalidConfiguration
    ∧ mkBimanualFollowerConfig "/dev/ttyUSB0" "/dev/ttyUSB1" true
        (some (MRT.list [10, 10, 10, 10, 10, 10, 10, 10, 10, 10, 10])) false
        = .error .invalidConfiguration
    ∧ mkBimanualFollowerConfig "/dev/ttyUSB0" "/dev/ttyUSB1" true
        (some (MRT.scalar 10)) false
        = .ok ⟨"/dev/ttyUSB0", "/dev/ttyUSB1", true, some (MRT.scalar 10),
            false⟩ :=
  ⟨(config_validation _ _ _ _ _).1 rfl,
   (config_validation _ _ _ _ _).2.1 _ rfl (by decide),
   (config_validation _ _ _ _ _).2.2 (by decide) (by intro bs h; simp at h)⟩

/-- C2 counterexample: a controller whose left bus reports connected but
whose right bus does not. connect() does not fail with AlreadyConnected —
it proceeds, and its trace starts with bus I/O on the (already connected)
left bus. -/
theorem connect_partial_counterexample :
    exStLeftOnly.leftConnected = true
    ∧ connect exStLeftOnly true
        = ([ConnectEvent.busConnect Side.left,
            ConnectEvent.busConnect Side.right,
            ConnectEvent.configureArms], .ok ()) :=
  ⟨rfl, rfl⟩

/-- C2 amended: connect() fails with AlreadyConnected and performs no bus
I/O exactly when is_connected holds, that is when both buses AND all
cameras report connected; when the controller is incompletely connected
(for example one bus already open), connect() does not raise and its first
action is bus I/O on the left bus. -/
theorem connect_when_connected (st : DualArmState) (cal : Bool) :
    (isConnected st = true →
      connect st cal = ([], .error .alreadyConnected))
    ∧ (isConnected st = false →
        (connect st cal).2 = .ok ()
        ∧ (connect st cal).1.head?
            = some (ConnectEvent.busConnect Side.left)) := by
  constructor
  · intro h
    simp [connect, h]
  · intro h
    constructor
    · simp [connect, h]
    · simp [connect, h]

/-- Witness for the amended C2. -/
theorem connect_when_connected_witness :
    connect exStReady true = ([], .error .alreadyConnected)
    ∧ (connect exStLeftOnly false).2 = .ok () :=
  ⟨(connect_when_connected exStReady true).1 (by decide),
   ((connect_when_connected exStLeftOnly false).2 (by decide)).1⟩

/-- C5 counterexample: a connected controller with one camera whose left
bus release raises. disconnect() attempts only the left bus release — the
right bus and the camera are never released, so errors are not aggregated
and later releases are abandoned. -/
theorem disconnect_abort_counterexample :
    disconnect exCfgNoBound exStReady exEnvLeftFail
        = ([Release.bus Side.left true], .error .busFailure)
    ∧ Release.bus Side.right true
        ∉ (disconnect exCfgNoBound exStReady exEnvLeftFail).1
    ∧ Release.cam "wrist_cam"
        ∉ (disconnect exCfgNoBound exStReady exEnvLeftFail).1 := by
  refine ⟨rfl, ?_, ?_⟩ <;> decide

/-- C5 amended: disconnect() fails with NotConnected when the controller
is not connected (releasing nothing); otherwise it releases the left bus,
the right bus (each passed the configured disable-torque flag) and then
every camera in order, but stops at the first raising release and
propagates its error — it does not aggregate errors and does not attempt
the remaining releases; only when every release succeeds are all owned
resources released. -/
theorem disconnect_sequential (cfg : BimanualFollowerConfig)
    (st : DualArmState) (env : DisconnectEnv) :
    (isConnected st = false →
      disconnect cfg st env = ([], .error .notConnected))
    ∧ (isConnected st = true → env.leftOk = false →
        disconnect cfg st env
          = ([Release.bus Side.left cfg.disable_torque_on_disconnect],
             .error .busFailure))
    ∧ (isConnected st = true → env.leftOk = true → env.rightOk = true →
        (∀ c ∈ keys st.cameras, env.camOk c = true) →
        disconnect cfg st env
          = (Release.bus Side.left cfg.disable_torque_on_disconnect
              :: Release.bus Side.right cfg.disable_torque_on_disconnect
              :: (keys st.cameras).map Release.cam, .ok ())) := by
  refine ⟨?_, ?_, ?_⟩
  · intro h
    simp [disconnect, h]
  · intro h hl
    simp [disconnect, h, hl]
  · intro h hl hr hc
    simp [disconnect, h, hl, hr,
      camDisconnects_ok env.camOk (keys st.cameras) hc]

/-- Witness for the amended C5. -/
theorem disconnect_sequential_witness :
    disconnect exCfgNoBound exStOff exEnvAllOk = ([], .error .notConnected)
    ∧ disconnect exCfgNoBound exStReady exEnvAllOk
        = ([Release.bus Side.left true, Release.bus Side.right true,
            Release.cam "wrist_cam"], .ok ()) :=
  ⟨(disconnect_sequential exCfgNoBound exStOff exEnvAllOk).1 (by decide),
   (disconnect_sequential exCfgNoBound exStReady exEnvAllOk).2.2
     (by decide) (by decide) (by decide) (by decide)⟩

/-- C6 counterexample: a calibration run in which the sweep never moved
any joint, so every recorded range collapses to min = max = 100.
calibrate() raises nothing: it silently accepts the zero-width range into
the calibration map (here the left gripper entry, with
range_min = range_max = 100) and produces the full 12-entry map. -/
theorem calibrate_zero_width_counterexample :
    getKey? (calibrate [] exCalibZeroWidth) "left_gripper"
        = some ⟨6, 0, 7, 100, 100⟩
    ∧ (calibrate [] exCalibZeroWidth).length = 12 := by
  constructor
  · decide
  · decide

/-- C6 amended: calibrate() performs no zero-width check: for every swept
motor of either arm, the recorded (range_min, range_max) pair is copied
verbatim into the calibration map — in particular a collapsed range with
range_min = range_max is accepted without any error (no
CalibrationIncomplete exists in this code path). -/
theorem calibrate_accepts_recorded_ranges (env : CalibEnv) (m : String)
    (i : Nat) :
    ((m, i) ∈ leftMotors → m ≠ "wrist_roll" →
      ("left_" ++ m,
        (⟨i, 0, env.leftHoming m, env.leftMins m, env.leftMaxs m⟩ :
          MotorCalibration)) ∈ calibrate [] env)
    ∧ ((m, i) ∈ rightMotors → m ≠ "wrist_roll" →
      ("right_" ++ m,
        (⟨i, 0, env.rightHoming m, env.rightMins m, env.rightMaxs m⟩ :
          MotorCalibration)) ∈ calibrate [] env) := by
  constructor
  · intro hm hw
    rw [calibrate_eq_entries]
    apply List.mem_append_left
    unfold armCalibEntries
    refine List.mem_map.mpr ⟨(m, i), hm, ?_⟩
    simp [setFn_other _ _ _ _ hw]
  · intro hm hw
    rw [calibrate_eq_entries]
    apply List.mem_append_right
    unfold armCalibEntries
    refine List.mem_map.mpr ⟨(m, i), hm, ?_⟩
    simp [setFn_other _ _ _ _ hw]

/-- Witness for the amended C6: the zero-width gripper range of the
collapsed sweep lands in the calibration map unchanged. -/
theorem calibrate_accepts_recorded_ranges_witness :
    ("left_" ++ "gripper", (⟨6, 0, 7, 100, 100⟩ : MotorCalibration))
        ∈ calibrate [] exCalibZeroWidth :=
  (calibrate_accepts_recorded_ranges exCalibZeroWidth "gripper" 6).1
    (by decide) (by decide)

/-- C8: for every calibration run and both arms, the full-turn joint
wrist_roll receives the calibrated range exactly [0, 4095], regardless of
what the sweep recorded for it, and it is excluded from the
range-of-motion sweep list. -/
theorem fullturn_fixed_range (env : CalibEnv) :
    getKey? (calibrate [] env) "left_wrist_roll"
        = some ⟨5, 0, env.leftHoming "wrist_roll", 0, 4095⟩
    ∧ getKey? (calibrate [] env) "right_wrist_roll"
        = some ⟨11, 0, env.rightHoming "wrist_roll", 0, 4095⟩
    ∧ "wrist_roll" ∉ sweptMotors := by
  have hnd : (keys (calibrate [] env)).Nodup := by
    rw [calib_keys]
    decide
  refine ⟨?_, ?_, by decide⟩
  · have hmem : ("left_" ++ "wrist_roll",
        (⟨5, 0, env.leftHoming "wrist_roll", 0, 4095⟩ : MotorCalibration))
        ∈ calibrate [] env := by
      rw [calibrate_eq_entries]
      apply List.mem_append_left
      unfold armCalibEntries
      refine List.mem_map.mpr ⟨("wrist_roll", 5), by decide, ?_⟩
      simp [setFn_self]
    rw [show ("left_" ++ "wrist_roll" : String) = "left_wrist_roll"
      from by decide] at hmem
    exact getKey?_eq_of_mem _ _ _ hmem hnd
  · have hmem : ("right_" ++ "wrist_roll",
        (⟨11, 0, env.rightHoming "wrist_roll", 0, 4095⟩ : MotorCalibration))
        ∈ calibrate [] env := by
      rw [calibrate_eq_entries]
      apply List.mem_append_right
      unfold armCalibEntries
      refine List.mem_map.mpr ⟨("wrist_roll", 11), by decide, ?_⟩
      simp [setFn_self]
    rw [show ("right_" ++ "wrist_roll" : String) = "right_wrist_roll"
      from by decide] at hmem
    exact getKey?_eq_of_mem _ _ _ hmem hnd

/-- C9: every run of calibrate() replaces the calibration map in full
(the result never depends on the prior map), and the result has exactly
one entry per motor of each arm in the fixed prefixed key order, with
drive_mode 0 everywhere; when the recorded minima do not exceed the
recorded maxima, every entry satisfies range_min ≤ range_max. -/
theorem calibrate_structure (prior : List (String × MotorCalibration))
    (env : CalibEnv) :
    calibrate prior env = calibrate [] env
    ∧ keys (calibrate prior env) = calibKeys
    ∧ (∀ e ∈ calibrate prior env, e.2.drive_mode = 0)
    ∧ ((∀ m ∈ sweptMotors, env.leftMins m ≤ env.leftMaxs m
          ∧ env.rightMins m ≤ env.rightMaxs m) →
        ∀ e ∈ calibrate prior env, e.2.range_min ≤ e.2.range_max) := by
  have hjl : keys leftMotors = armJoints := by decide
  have hjr : keys rightMotors = armJoints := by decide
  refine ⟨rfl, calib_keys prior env, ?_, ?_⟩
  · intro e he
    rw [calibrate_eq_entries] at he
    unfold armCalibEntries at he
    rcases List.mem_append.mp he with h | h <;>
      · obtain ⟨p, _, hp⟩ := List.mem_map.mp h
        rw [← hp]
  · intro hranges e he
    rw [calibrate_eq_entries] at he
    unfold armCalibEntries at he
    rcases List.mem_append.mp he with h | h
    · obtain ⟨p, hpmem, hp⟩ := List.mem_map.mp h
      rw [← hp]
      by_cases hw : p.1 = "wrist_roll"
      · rw [show (setFn env.leftMins "wrist_roll" 0 p.1
            : Int) = 0 from by rw [hw, setFn_self],
          show (setFn env.leftMaxs "wrist_roll" 4095 p.1
            : Int) = 4095 from by rw [hw, setFn_self]]
        simp
      · rw [setFn_other _ _ _ _ hw, setFn_other _ _ _ _ hw]
        refine (hranges p.1 ?_).1
        have hmj : p.1 ∈ armJoints := by
          rw [← hjl]
          exact List.mem_map_of_mem Prod.fst hpmem
        exact List.mem_filter.mpr ⟨hmj, by simp [hw]⟩
    · obtain ⟨p, hpmem, hp⟩ := List.mem_map.mp h
      rw [← hp]
      by_cases hw : p.1 = "wrist_roll"
      · rw [show (setFn env.rightMins "wrist_roll" 0 p.1
            : Int) = 0 from by rw [hw, setFn_self],
          show (setFn env.rightMaxs "wrist_roll" 4095 p.1
            : Int) = 4095 from by rw [hw, setFn_self]]
        simp
      · rw [setFn_other _ _ _ _ hw, setFn_other _ _ _ _ hw]
        refine (hranges p.1 ?_).2
        have hmj : p.1 ∈ armJoints := by
          rw [← hjr]
          exact List.mem_map_of_mem Prod.fst hpmem
        exact List.mem_filter.mpr ⟨hmj, by simp [hw]⟩

/-- Witness for C9 at a concrete calibration run. -/
theorem calibrate_structure_witness :
    keys (calibrate [] exCalibZeroWidth) = calibKeys
    ∧ (∀ e ∈ calibrate [] exCalibZeroWidth,
        e.2.range_min ≤ e.2.range_max) :=
  ⟨(calibrate_structure [] exCalibZeroWidth).2.1,
   (calibrate_structure [] exCalibZeroWidth).2.2.2 (by decide)⟩

/-- C10: on a connected controller with a maximum-relative-target bound
configured, an action key of the form left_(name).pos whose derived motor
name is not in the left motor map makes send_action fail with an unhandled
key-lookup error (a Python KeyError) while pairing goals with present
positions, rather than ignoring the unknown entry. -/
theorem send_action_unknown_motor (cfg : BimanualFollowerConfig)
    (st : DualArmState) (action : List (String × Int)) (k : String)
    (v : Int) (mrt : MRT)
    (hmrt : cfg.max_relative_target = some mrt)
    (hconn : isConnected st = true)
    (hmem : (k, v) ∈ action)
    (hend : strEndsWith k ".pos" = true)
    (hstart : strStartsWith k "left_" = true)
    (hunk : stripKey "left_" k ∉ armJoints) :
    ∃ n, n ∉ armJoints
      ∧ send_action cfg st action = .error (RErr.keyError n) := by
  have hkey : stripKey "left_" k ∈ keys (splitActions action).1 :=
    splitGo_left_key action [] [] k v hmem hend hstart
  have hnonempty : (splitActions action).1.isEmpty = false := by
    cases hx : (splitActions action).1 with
    | nil =>
      rw [hx] at hkey
      simp [keys] at hkey
    | cons p tl => rfl
  have hlook : getKey? (syncReadPresent armJoints st.leftPresent)
      (stripKey "left_" k) = none :=
    (getKey?_syncRead_none armJoints st.leftPresent _).mpr hunk
  obtain ⟨n, hn, hn2⟩ := pairWithPresent_fail (splitActions action).1
    (syncReadPresent armJoints st.leftPresent) (stripKey "left_" k)
    hkey hlook
  have hnnot : n ∉ armJoints :=
    (getKey?_syncRead_none armJoints st.leftPresent n).mp hn2
  refine ⟨n, hnnot, ?_⟩
  have hcl : clampStep mrt st.leftPresent (splitActions action).1
      = .error (RErr.keyError n) := by
    simp [clampStep, hnonempty, hn]
  simp [send_action, hconn, hmrt, hcl]

/-- Witness for C10: a bound of 10 is configured and the action carries
the unknown key left_unknown.pos; send_action fails with a KeyError. -/
theorem send_action_unknown_motor_witness :
    ∃ n, n ∉ armJoints
      ∧ send_action exCfgBound10 exStReady [("left_unknown.pos", 3)]
          = .error (RErr.keyError n) :=
  send_action_unknown_motor exCfgBound10 exStReady
    [("left_unknown.pos", 3)] "left_unknown.pos" 3 (MRT.scalar 10)
    rfl (by decide) (by decide) (by decide) (by decide) (by decide)

/-- C3: on a connected controller with no bound configured, send_action
splits the incoming keys by the left_/right_ prefix and .pos suffix into
the two per-arm target maps, writes each nonempty target map in one
sync_write and issues no transaction at all on an arm with an empty
target map, returns exactly the written per-arm values re-prefixed in the
input key convention, and ignores every entry matching neither pattern
(removing such an entry does not change the outcome). -/
theorem send_action_no_bound (cfg : BimanualFollowerConfig)
    (st : DualArmState) (action : List (String × Int))
    (hconn : isConnected st = true)
    (hmrt : cfg.max_relative_target = none) :
    send_action cfg st action
        = .ok ⟨prefixKeys "left_" (splitActions action).1
            ++ prefixKeys "right_" (splitActions action).2,
            writeOps (splitActions action).1,
            writeOps (splitActions action).2⟩
    ∧ (∀ (a1 a2 : List (String × Int)) (k : String) (v : Int),
        ¬(strEndsWith k ".pos" = true ∧ (strStartsWith k "left_" = true
          ∨ strStartsWith k "right_" = true)) →
        send_action cfg st (a1 ++ (k, v) :: a2)
          = send_action cfg st (a1 ++ a2)) := by
  constructor
  · have hnd := splitGo_nodup action [] [] (by simp [keys]) (by simp [keys])
    have hsent := mkSent_eq (splitActions action).1 (splitActions action).2
      hnd.1 hnd.2
    simp [send_action, hconn, hmrt, hsent]
  · intro a1 a2 k v hk
    have hsplit : splitActions (a1 ++ (k, v) :: a2)
        = splitActions (a1 ++ a2) := splitGo_ignore k v a2 hk a1 [] []
    simp [send_action, hsplit]

/-- Witness for C3 at the scenario of the spec: the connected controller
with no bound returns the left gripper action unchanged, writes it to the
left bus in one transaction and issues no right-bus transaction. -/
theorem send_action_no_bound_witness :
    send_action exCfgNoBound exStReady [("left_gripper.pos", 5)]
        = .ok ⟨[("left_gripper.pos", 5)],
            [BusOp.syncWrite "Goal_Position" [("gripper", 5)]], []⟩ := by
  have h := (send_action_no_bound exCfgNoBound exStReady
    [("left_gripper.pos", 5)] (by decide) rfl).1
  rw [h]
  rfl

theorem keys_syncRead (joints : List String) (f : String → Int) :
    keys (syncReadPresent joints f) = joints :=
  keys_map_pairFn joints f

/-- C4: on a connected dual-arm controller, get_observation returns a
dictionary whose keys are exactly the twelve motor keys
(side)_(joint).pos — left motors first, then right motors, in motor-map
order — followed by one key per configured camera in construction order
(assuming the camera names are distinct and distinct from the motor keys,
as in any valid configuration); when the controller is not fully connected
it fails with NotConnected. -/
theorem get_observation_spec (st : DualArmState) (camImage : String → Nat) :
    (isConnected st = false →
      get_observation st camImage = .error .notConnected)
    ∧ (isConnected st = true → (keys st.cameras).Nodup →
        (∀ c ∈ keys st.cameras, c ∉ obsMotorKeys) →
        ∃ obs, get_observation st camImage = .ok obs
          ∧ keys obs = obsMotorKeys ++ keys st.cameras) := by
  constructor
  · intro h
    simp [get_observation, h]
  · intro h hnodup hdisj
    set L := (syncReadPresent armJoints st.leftPresent).map
      (fun p => ("left_" ++ p.1 ++ ".pos", ObsVal.pos p.2)) with hLdef
    set R := (syncReadPresent armJoints st.rightPresent).map
      (fun p => ("right_" ++ p.1 ++ ".pos", ObsVal.pos p.2)) with hRdef
    set CE := (keys st.cameras).map
      (fun c => (c, ObsVal.img (camImage c))) with hCEdef
    have hkL : keys L = armJoints.map (fun m => "left_" ++ m ++ ".pos") := by
      rw [hLdef]
      have e1 := keys_map_fst (syncReadPresent armJoints st.leftPresent)
        (fun m => "left_" ++ m ++ ".pos") (fun p => ObsVal.pos p.2)
      rw [keys_syncRead] at e1
      exact e1
    have hkR : keys R = armJoints.map (fun m => "right_" ++ m ++ ".pos") := by
      rw [hRdef]
      have e1 := keys_map_fst (syncReadPresent armJoints st.rightPresent)
        (fun m => "right_" ++ m ++ ".pos") (fun p => ObsVal.pos p.2)
      rw [keys_syncRead] at e1
      exact e1
    have hkCE : keys CE = keys st.cameras := by
      rw [hCEdef]
      exact keys_map_pairFn _ _
    have hndL : (keys L).Nodup := by
      rw [hkL]
      decide
    have hndR : (keys R).Nodup := by
      rw [hkR]
      decide
    have step1 : dictUpdate [] L = L := by
      have e := dictUpdate_fresh L []
        (by intro x hx hmem; simp [keys] at hmem) hndL
      rw [e, List.nil_append]
    have step2 : dictUpdate L R = L ++ R := by
      refine dictUpdate_fresh R L ?_ hndR
      intro x hxR hxL
      rw [hkR] at hxR
      rw [hkL] at hxL
      obtain ⟨a, _, ha⟩ := List.mem_map.mp hxR
      obtain ⟨b, _, hb⟩ := List.mem_map.mp hxL
      exact left_right_key_ne b a (hb.trans ha.symm)
    have step3pre : dictUpdate (L ++ R) CE
        = (keys st.cameras).foldl
            (fun d c => dictSet d c (ObsVal.img (camImage c))) (L ++ R) := by
      rw [hCEdef]
      unfold dictUpdate
      rw [List.foldl_map]
    have step3 : (keys st.cameras).foldl
        (fun d c => dictSet d c (ObsVal.img (camImage c))) (L ++ R)
        = (L ++ R) ++ CE := by
      rw [← step3pre]
      refine dictUpdate_fresh CE (L ++ R) ?_ (by rw [hkCE]; exact hnodup)
      intro x hx
      rw [hkCE] at hx
      rw [keys_append, hkL, hkR]
      exact hdisj x hx
    have hval : get_observation st camImage
        = .ok ((keys st.cameras).foldl
            (fun d c => dictSet d c (ObsVal.img (camImage c)))
            (dictUpdate (dictUpdate [] L) R)) := by
      unfold get_observation
      rw [h]
      rw [if_neg (by decide : ¬(true = false))]
    refine ⟨(L ++ R) ++ CE, ?_, ?_⟩
    · rw [hval, step1, step2, step3]
    · rw [keys_append, keys_append, hkL, hkR, hkCE]
      rfl

/-- Witness for C4: a disconnected controller fails with NotConnected;
the connected fixture with one camera yields exactly the twelve motor
keys followed by the camera key. -/
theorem get_observation_spec_witness :
    get_observation exStOff (fun _ => 0) = .error .notConnected
    ∧ ∃ obs, get_observation exStReady (fun _ => 0) = .ok obs
        ∧ keys obs = obsMotorKeys ++ ["wrist_cam"] := by
  constructor
  · exact (get_observation_spec exStOff (fun _ => 0)).1 (by decide)
  · exact (get_observation_spec exStReady (fun _ => 0)).2
      (by decide) (by decide) (by decide)
